import Mathlib

/-!
# Verification of the gouache cache-consistency decorators

Shallow embedding of the three core decorators of the `gouache` repository:

* the Delayed Double-Delete decorator (`ddd/cache.go`),
* the hash-based sharding router (`sharded/cache.go`),
* the request-coalescing (singleflight) decorator (`sf`, wrapping
  `golang.org/x/sync/singleflight`).

Go values of type `any` are modelled as `Option Nat` (`none` is Go's `nil`);
Go's `error` results are modelled as `Option GoErr` (`none` is a `nil` error),
where `GoErr.cacheMiss` is the `gouache.ErrCacheMiss` sentinel and
`GoErr.fail n` stands for an arbitrary distinct non-sentinel error.
Wrapped collaborators (cache, database, task scheduler) are modelled as
in-memory stores plus explicit fault injection, so that both the
state effects and the error paths of the decorators are visible.
-/

namespace Gouache

/-- Keys are strings, as in the Go interfaces. -/
abbrev Key := String

/-- A Go `any` value; `none` models Go's `nil`. -/
abbrev GoVal := Option Nat

/-- Go errors: the `gouache.ErrCacheMiss` sentinel plus arbitrary other
errors.  `errors.Is(err, gouache.ErrCacheMiss)` on this flat model is
equality with `some .cacheMiss`. -/
inductive GoErr where
  | cacheMiss
  | fail (n : Nat)
  deriving DecidableEq, Repr

/-- A backing store (used for both the wrapped cache's entries and the
database's rows): an association list from keys to values. -/
abbrev Store := List (Key × GoVal)

namespace Store

/-- Look a key up in a store. -/
def lookup (s : Store) (k : Key) : Option GoVal :=
  match s with
  | [] => none
  | (k', v) :: rest => if k' = k then some v else lookup rest k

/-- Remove every binding of a key from a store. -/
def erase (s : Store) (k : Key) : Store :=
  s.filter (fun p => p.1 ≠ k)

/-- Insert (upsert) a binding, replacing any previous binding of the key. -/
def insert (s : Store) (k : Key) (v : GoVal) : Store :=
  (k, v) :: erase s k

end Store

/-! ## The Delayed Double-Delete decorator (`ddd/cache.go`)

The decorator composes a wrapped cache and a database.  Collaborator
calls are modelled over `Store` states with per-operation fault
injection: a fault of `some e` makes the corresponding collaborator call
fail with error `e` and leave the store unchanged; a fault of `none`
makes it succeed with its reference store semantics. -/

namespace Ddd

/-- The observable synchronous steps a DDD `Set`/`Delete` call performs
against its collaborators, in the order it performs them. -/
inductive Event where
  | cacheDelete (k : Key)
  | dbUpsert (k : Key) (v : GoVal)
  | dbDelete (k : Key)
  | submit (k : Key)
  deriving DecidableEq, Repr

/-- Fault injection for the synchronous path of one DDD `Set` or
`Delete` call: the immediate cache delete, the database mutation
(upsert for `Set`, delete for `Delete`), and the task-scheduler
submission.  The delayed second deletion's own fault is a separate
argument of `runDelayed`, since it happens on the background path. -/
structure Faults where
  cacheDelete : Option GoErr
  dbWrite : Option GoErr
  submit : Option GoErr
  deriving DecidableEq, Repr

/-- No injected faults: every collaborator call succeeds. -/
def Faults.ok : Faults := ⟨none, none, none⟩

/-- Combined state of the two wrapped collaborators. -/
structure State where
  cache : Store
  db : Store
  deriving DecidableEq, Repr

/-- The wrapped cache's `Delete`: on success the entry is removed, on an
injected fault the error is returned and the store is unchanged. -/
def cacheDeleteOp (fault : Option GoErr) (s : State) (k : Key) :
    State × Option GoErr :=
  match fault with
  | some e => (s, some e)
  | none => (⟨s.cache.erase k, s.db⟩, none)

/-- The database's `Upsert`. -/
def dbUpsertOp (fault : Option GoErr) (s : State) (k : Key) (v : GoVal) :
    State × Option GoErr :=
  match fault with
  | some e => (s, some e)
  | none => (⟨s.cache, s.db.insert k v⟩, none)

/-- The database's `Delete`. -/
def dbDeleteOp (fault : Option GoErr) (s : State) (k : Key) :
    State × Option GoErr :=
  match fault with
  | some e => (s, some e)
  | none => (⟨s.cache, s.db.erase k⟩, none)

/-- Result of the synchronous path of a DDD `Set`/`Delete` call:
the final collaborator state, the returned error, the ordered trace of
collaborator steps that actually ran, and the key of the delayed
deletion task if one was accepted by the scheduler (`cache.Options.Gopher`). -/
structure OpResult where
  state : State
  ret : Option GoErr
  trace : List Event
  task : Option Key
  deriving DecidableEq, Repr

/-- `(cache *cache) Set(ctx, key, val)` of `ddd/cache.go`:
delete the cache entry (return the error on failure), upsert into the
database (return the error on failure), then hand the delayed deletion
closure to the Gopher, returning its submission result. -/
def set (f : Faults) (s : State) (k : Key) (v : GoVal) : OpResult :=
  let (s1, r1) := cacheDeleteOp f.cacheDelete s k
  match r1 with
  | some e => ⟨s1, some e, [.cacheDelete k], none⟩
  | none =>
    let (s2, r2) := dbUpsertOp f.dbWrite s1 k v
    match r2 with
    | some e => ⟨s2, some e, [.cacheDelete k, .dbUpsert k v], none⟩
    | none =>
      match f.submit with
      | some e => ⟨s2, some e, [.cacheDelete k, .dbUpsert k v, .submit k], none⟩
      | none => ⟨s2, none, [.cacheDelete k, .dbUpsert k v, .submit k], some k⟩

/-- `(cache *cache) Delete(ctx, key)` of `ddd/cache.go`:
delete from cache, delete from database, then schedule the delayed
second deletion, propagating the first error met at each stage. -/
def delete (f : Faults) (s : State) (k : Key) : OpResult :=
  let (s1, r1) := cacheDeleteOp f.cacheDelete s k
  match r1 with
  | some e => ⟨s1, some e, [.cacheDelete k], none⟩
  | none =>
    let (s2, r2) := dbDeleteOp f.dbWrite s1 k
    match r2 with
    | some e => ⟨s2, some e, [.cacheDelete k, .dbDelete k], none⟩
    | none =>
      match f.submit with
      | some e => ⟨s2, some e, [.cacheDelete k, .dbDelete k, .submit k], none⟩
      | none => ⟨s2, none, [.cacheDelete k, .dbDelete k, .submit k], some k⟩

/-- The closure the Gopher runs in the background (the delayed second
cache deletion): after the delay it deletes the cache entry under a
fresh timeout, and on failure reports the error to the configured
`ErrorHandler`.  The returned list collects the handler invocations. -/
def runDelayed (fault : Option GoErr) (s : State) (k : Key) :
    State × List GoErr :=
  match fault with
  | some e => (s, [e])
  | none => (⟨s.cache.erase k, s.db⟩, [])

/-- A full `Set` call together with the later execution of its scheduled
background deletion (when one was scheduled): final state, the error
`Set` returned to its caller, and the errors delivered to the handler. -/
def setThenTask (f : Faults) (bg : Option GoErr) (s : State) (k : Key)
    (v : GoVal) : State × Option GoErr × List GoErr :=
  let r := set f s k v
  match r.task with
  | some k' =>
    let (s', errs) := runDelayed bg r.state k'
    (s', r.ret, errs)
  | none => (r.state, r.ret, [])

/-- A full `Delete` call together with the later execution of its
scheduled background deletion. -/
def deleteThenTask (f : Faults) (bg : Option GoErr) (s : State) (k : Key) :
    State × Option GoErr × List GoErr :=
  let r := delete f s k
  match r.task with
  | some k' =>
    let (s', errs) := runDelayed bg r.state k'
    (s', r.ret, errs)
  | none => (r.state, r.ret, [])

/-- `(cache *cache) Get(ctx, key)` of `ddd/cache.go`, with the
collaborator call results as oracles: `cacheRes` is what the wrapped
cache's `Get` returned, `dbRes` what the database's `Select` returned,
and `repopRes` what the repopulating cache `Set` returned.  If the cache
result's error is the `ErrCacheMiss` sentinel the decorator reads
through; otherwise the cache pair is returned unmodified. -/
def get (cacheRes : GoVal × Option GoErr) (dbRes : GoVal × Option GoErr)
    (repopRes : Option GoErr) : GoVal × Option GoErr :=
  if cacheRes.2 = some .cacheMiss then
    match dbRes with
    | (_, some e) => (none, some e)
    | (v, none) => (v, repopRes)
  else cacheRes

/-- The wrapped cache's `Get` over a store: a present entry is a hit, an
absent one is the `ErrCacheMiss` sentinel (as in every cache adapter of
the repository, e.g. `sample/cache.go`). -/
def cacheGetOp (c : Store) (k : Key) : GoVal × Option GoErr :=
  match c.lookup k with
  | some v => (v, none)
  | none => (none, some .cacheMiss)

/-- Modelled from the spec: the `gouache.Database` capability's `Select`
is declared in the root package, which is not under `src/`; no database
adapter ships in the repository.  Following the spec's capability
contract `Select(ctx, key) -> (value, error)` and its §8 property that a
read-through after `Delete` yields the `CacheMiss` outcome, `Select` of
a present row succeeds with its value and `Select` of an absent row
reports the miss sentinel. -/
def dbSelectOp (d : Store) (k : Key) : GoVal × Option GoErr :=
  match d.lookup k with
  | some v => (v, none)
  | none => (none, some .cacheMiss)

/-- DDD `Get` over collaborator stores, all collaborator calls
succeeding operationally: instantiates `get` with the store-derived
cache and database results and performs the repopulation on a miss. -/
def getSt (s : State) (k : Key) : State × (GoVal × Option GoErr) :=
  let cr := cacheGetOp s.cache k
  if cr.2 = some .cacheMiss then
    match dbSelectOp s.db k with
    | (_, some e) => (s, (none, some e))
    | (v, none) => (⟨s.cache.insert k v, s.db⟩, (v, none))
  else (s, cr)

end Ddd

/-! ## The sharding router (`sharded/cache.go`)

A `hash.Hash` instance, as observed after the key's bytes have been
written to it, is modelled by `HashInst`: its `Size()`, whether it also
implements `hash.Hash32` / `hash.Hash64` (and with which sum), and its
`Sum(nil)` digest bytes.  The `HashFactory` plus the `Write` call are
modelled per key as an `Except GoErr HashInst` together with the write's
own error.  Go's `int` is modelled as unbounded (the source targets
64-bit builds where `int` holds every `uint32`); the conversions
`uint32(len(buckets))` and `uint64(len(buckets))` are modelled with
their wrap-around `% 2^32` / `% 2^64`. -/

namespace Sharded

/-- A hash instance after the key has been written: `size` is `Size()`,
`sum32?` is `some s` exactly when the instance implements `hash.Hash32`
(with `Sum32() = s`), `sum64?` likewise for `hash.Hash64`, and `digest`
is the byte slice `Sum(nil)`. -/
structure HashInst where
  writeErr : Option GoErr
  size : Nat
  sum32? : Option Nat
  sum64? : Option Nat
  digest : List Nat
  deriving DecidableEq, Repr

/-- Outcome of `(cache *cache) bucket(ctx, key)`: a bucket index, a
returned error, or a Go panic (failed type assertion, or a modulus of
zero after integer conversion). -/
inductive BucketOutcome where
  | ok (idx : Nat)
  | err (e : GoErr)
  | panicked
  deriving DecidableEq, Repr

/-- `binary.BigEndian.Uint32` of the first four digest bytes. -/
def beUint32 : List Nat → Nat
  | b0 :: b1 :: b2 :: b3 :: _ => b0 * 2 ^ 24 + b1 * 2 ^ 16 + b2 * 2 ^ 8 + b3
  | _ => 0

/-- `(cache *cache) bucket(ctx, key)` of `sharded/cache.go`, given the
factory-plus-write behaviour for the key and the bucket count `n`
(`len(cache.Buckets)`): propagate a factory error, propagate a write
error, then switch on `Size()`: width 4 downcasts to `hash.Hash32`
(panicking when the instance does not implement it) and takes
`Sum32() % uint32(n)`; width 8 likewise with `hash.Hash64` and
`Sum64() % uint64(n)`; any other width takes `Sum(nil)`, selects bucket
0 when the digest is shorter than 4 bytes, and otherwise takes the
big-endian `uint32` of its first 4 bytes modulo `n` in `int`
arithmetic.  A zero modulus (possible only through conversion
wrap-around or `n = 0`) is a Go run-time panic. -/
def bucketIdx (hb : Except GoErr HashInst) (n : Nat) : BucketOutcome :=
  match hb with
  | .error e => .err e
  | .ok h =>
    match h.writeErr with
    | some e => .err e
    | none =>
      if h.size = 4 then
        match h.sum32? with
        | none => .panicked
        | some s => if n % 2 ^ 32 = 0 then .panicked else .ok (s % (n % 2 ^ 32))
      else if h.size = 8 then
        match h.sum64? with
        | none => .panicked
        | some s => if n % 2 ^ 64 = 0 then .panicked else .ok (s % (n % 2 ^ 64))
      else
        if h.digest.length < 4 then .ok 0
        else if n = 0 then .panicked else .ok (beUint32 h.digest % n)

/-- Behaviour of a wrapped bucket (an arbitrary `gouache.Cache`): the
results its three methods return for each key. -/
structure BucketBeh where
  get : Key → GoVal × Option GoErr
  set : Key → GoVal → Option GoErr
  del : Key → Option GoErr

/-- The sharded cache: its configured hash behaviour per key and its
bucket list. -/
structure Cache where
  hash : Key → Except GoErr HashInst
  buckets : List BucketBeh

/-- A Go call that either returns normally or panics. -/
inductive Outcome (α : Type) where
  | ret (a : α)
  | panicked
  deriving DecidableEq, Repr

/-- `New(buckets, opts...)` of `sharded/cache.go`: panics when the
bucket list is empty, otherwise returns the instance. -/
def new (buckets : List BucketBeh) (hash : Key → Except GoErr HashInst) :
    Outcome Cache :=
  if buckets.length = 0 then .panicked else .ret ⟨hash, buckets⟩

/-- `(cache *cache) Get(ctx, key)`: resolve the bucket, return the
resolution error on failure, else delegate to the bucket. -/
def get (c : Cache) (k : Key) : Outcome (GoVal × Option GoErr) :=
  match bucketIdx (c.hash k) c.buckets.length with
  | .panicked => .panicked
  | .err e => .ret (none, some e)
  | .ok i =>
    match c.buckets[i]? with
    | some b => .ret (b.get k)
    | none => .panicked

/-- `(cache *cache) Set(ctx, key, val)`. -/
def set (c : Cache) (k : Key) (v : GoVal) : Outcome (Option GoErr) :=
  match bucketIdx (c.hash k) c.buckets.length with
  | .panicked => .panicked
  | .err e => .ret (some e)
  | .ok i =>
    match c.buckets[i]? with
    | some b => .ret (b.set k v)
    | none => .panicked

/-- `(cache *cache) Delete(ctx, key)`. -/
def delete (c : Cache) (k : Key) : Outcome (Option GoErr) :=
  match bucketIdx (c.hash k) c.buckets.length with
  | .panicked => .panicked
  | .err e => .ret (some e)
  | .ok i =>
    match c.buckets[i]? with
    | some b => .ret (b.del k)
    | none => .panicked

end Sharded

/-! ## The coalescing decorator (`sf`, `src/unnamed/part_000`)

`sf.Cache.Get` delegates the whole per-key deduplication to
`singleflight.Group.Do` of `golang.org/x/sync`.  That library is not
part of this repository, so its in-flight table is modelled from the
spec as an interleaving transition system: the state maps each key to
the list of callers attached to its in-flight fetch (`none` when no
fetch is in flight), and the events are a caller starting a fetch as
leader, a caller joining an in-flight fetch as follower, and the fetch
completing and delivering its single `(value, error)` outcome to every
attached caller at once. -/

namespace Sf

/-- The `(value, error)` pair a fetch produced. -/
abbrev SFOutcome := GoVal × Option GoErr

/-- Interleaved events of the coalescing decorator.  `deliver` carries
the callers attached to the completed fetch and the one outcome each of
them receives. -/
inductive SFEvent where
  | fetchStart (k : Key) (leader : Nat)
  | join (k : Key) (follower : Nat)
  | deliver (k : Key) (callers : List Nat) (r : SFOutcome)
  deriving DecidableEq, Repr

/-- Modelled from the spec: the in-flight-request table of
`singleflight.Group` (`golang.org/x/sync`, not under `src/`), following
§3's `InFlightRequest` — a per-key record of the callers waiting on the
single outcome, created by the first caller, joined by followers, and
removed atomically when the fetch completes. -/
def SFState := Key → Option (List Nat)

/-- The empty table: no fetch in flight for any key. -/
def sfInit : SFState := fun _ => none

/-- Point update of the table. -/
def sfUpdate (s : SFState) (k : Key) (v : Option (List Nat)) : SFState :=
  fun k' => if k' = k then v else s k'

/-- One atomic step of the table.  A `fetchStart` requires no fetch in
flight for the key and registers the leader; a `join` requires one and
adds the follower; a `deliver` requires the attached callers to be
exactly those recorded and clears the entry.  An event that does not
satisfy its guard cannot occur (`none`). -/
def sfApply (s : SFState) : SFEvent → Option SFState
  | .fetchStart k c =>
    match s k with
    | none => some (sfUpdate s k (some [c]))
    | some _ => none
  | .join k c =>
    match s k with
    | some cs => some (sfUpdate s k (some (c :: cs)))
    | none => none
  | .deliver k cs _ =>
    if s k = some cs then some (sfUpdate s k none) else none

/-- Run a trace of events from a state; `none` when some event's guard
fails. -/
def sfRun (s : SFState) : List SFEvent → Option SFState
  | [] => some s
  | e :: tr =>
    match sfApply s e with
    | some s' => sfRun s' tr
    | none => none

/-- Number of fetches started for `k` in a trace. -/
def startCount (k : Key) (tr : List SFEvent) : Nat :=
  tr.countP fun e =>
    match e with
    | .fetchStart k' _ => k' = k
    | _ => false

/-- Number of fetches completed for `k` in a trace. -/
def deliverCount (k : Key) (tr : List SFEvent) : Nat :=
  tr.countP fun e =>
    match e with
    | .deliver k' _ _ => k' = k
    | _ => false

/-- The `(caller, outcome)` pairs delivered over a trace. -/
def sfOutcomes (tr : List SFEvent) : List (Nat × SFOutcome) :=
  tr.flatMap fun e =>
    match e with
    | .deliver _ cs r => cs.map fun c => (c, r)
    | _ => []

/-- 1 when a fetch is in flight for `k`, else 0. -/
def openCount (s : SFState) (k : Key) : Nat :=
  match s k with
  | some _ => 1
  | none => 0

end Sf

/-! ## Helper lemmas -/

theorem Store.lookup_erase (s : Store) (k : Key) :
    Store.lookup (Store.erase s k) k = none := by
  induction s with
  | nil => rfl
  | cons p rest ih =>
    simp only [Store.erase] at ih ⊢
    by_cases h : p.1 = k
    · simpa [List.filter_cons, h] using ih
    · simpa [List.filter_cons, h, Store.lookup] using ih

theorem Store.lookup_insert (s : Store) (k : Key) (v : GoVal) :
    Store.lookup (Store.insert s k v) k = some v := by
  simp [Store.insert, Store.lookup]

theorem Sf.sfApply_open (s0 s' : Sf.SFState) (e : Sf.SFEvent)
    (h : Sf.sfApply s0 e = some s') (k : Key) :
    Sf.startCount k [e] + Sf.openCount s0 k
      = Sf.deliverCount k [e] + Sf.openCount s' k := by
  cases e with
  | fetchStart k' c =>
    rw [Sf.sfApply] at h
    cases hs : s0 k' with
    | some l => rw [hs] at h; cases h
    | none =>
      rw [hs] at h
      injection h with h'
      subst h'
      by_cases hk : k = k'
      · subst hk
        simp [Sf.startCount, Sf.deliverCount, Sf.openCount, Sf.sfUpdate, hs]
      · have hk2 : ¬ k' = k := fun hh => hk hh.symm
        simp [Sf.startCount, Sf.deliverCount, Sf.openCount, Sf.sfUpdate, hk, hk2]
  | join k' c =>
    rw [Sf.sfApply] at h
    cases hs : s0 k' with
    | none => rw [hs] at h; cases h
    | some l =>
      rw [hs] at h
      injection h with h'
      subst h'
      by_cases hk : k = k'
      · subst hk
        simp [Sf.startCount, Sf.deliverCount, Sf.openCount, Sf.sfUpdate, hs]
      · have hk2 : ¬ k' = k := fun hh => hk hh.symm
        simp [Sf.startCount, Sf.deliverCount, Sf.openCount, Sf.sfUpdate, hk, hk2]
  | deliver k' cs r =>
    rw [Sf.sfApply] at h
    by_cases hg : s0 k' = some cs
    · rw [if_pos hg] at h
      injection h with h'
      subst h'
      by_cases hk : k = k'
      · subst hk
        simp [Sf.startCount, Sf.deliverCount, Sf.openCount, Sf.sfUpdate, hg]
      · have hk2 : ¬ k' = k := fun hh => hk hh.symm
        simp [Sf.startCount, Sf.deliverCount, Sf.openCount, Sf.sfUpdate, hk, hk2]
    · rw [if_neg hg] at h; cases h

theorem Sf.sfRun_count_invariant (tr : List Sf.SFEvent) :
    ∀ (s0 s1 : Sf.SFState), Sf.sfRun s0 tr = some s1 → ∀ k,
      Sf.startCount k tr + Sf.openCount s0 k
        = Sf.deliverCount k tr + Sf.openCount s1 k := by
  induction tr with
  | nil =>
    intro s0 s1 h k
    rw [Sf.sfRun] at h
    injection h with h'
    subst h'
    rfl
  | cons e tr ih =>
    intro s0 s1 h k
    rw [Sf.sfRun] at h
    cases he : Sf.sfApply s0 e with
    | none => rw [he] at h; cases h
    | some s' =>
      rw [he] at h
      have h1 := Sf.sfApply_open s0 s' e he k
      have h2 := ih s' s1 h k
      have h3 : Sf.startCount k (e :: tr)
          = Sf.startCount k [e] + Sf.startCount k tr := by
        simp only [Sf.startCount, List.countP_cons, List.countP_nil]
        omega
      have h4 : Sf.deliverCount k (e :: tr)
          = Sf.deliverCount k [e] + Sf.deliverCount k tr := by
        simp only [Sf.deliverCount, List.countP_cons, List.countP_nil]
        omega
      omega

theorem Sf.sfRun_append (a b : List Sf.SFEvent) :
    ∀ s, Sf.sfRun s (a ++ b) =
      match Sf.sfRun s a with
      | some s' => Sf.sfRun s' b
      | none => none := by
  induction a with
  | nil => intro s; rfl
  | cons e a ih =>
    intro s
    rw [List.cons_append, Sf.sfRun, Sf.sfRun]
    cases Sf.sfApply s e with
    | none => rfl
    | some s' => exact ih s'

theorem Sf.mem_preserved (tr : List Sf.SFEvent) :
    ∀ (s0 s1 : Sf.SFState) (k : Key) (c : Nat) (l : List Nat),
      Sf.sfRun s0 tr = some s1 → Sf.deliverCount k tr = 0 →
      s0 k = some l → c ∈ l →
      ∃ l', s1 k = some l' ∧ c ∈ l' := by
  induction tr with
  | nil =>
    intro s0 s1 k c l h _ hs hc
    rw [Sf.sfRun] at h
    injection h with h'
    subst h'
    exact ⟨l, hs, hc⟩
  | cons e tr ih =>
    intro s0 s1 k c l h hd hs hc
    rw [Sf.sfRun] at h
    cases he : Sf.sfApply s0 e with
    | none => rw [he] at h; cases h
    | some s' =>
      rw [he] at h
      have hdtr : Sf.deliverCount k tr = 0 := by
        simp only [Sf.deliverCount, List.countP_cons] at hd ⊢
        omega
      cases e with
      | fetchStart k' c0 =>
        rw [Sf.sfApply] at he
        cases hg : s0 k' with
        | some _ => rw [hg] at he; cases he
        | none =>
          rw [hg] at he
          injection he with he'
          subst he'
          by_cases hk : k = k'
          · subst hk; rw [hs] at hg; cases hg
          · exact ih _ _ _ _ _ h hdtr
              (show Sf.sfUpdate s0 k' (some [c0]) k = some l by
                simp [Sf.sfUpdate, hk, hs]) hc
      | join k' c0 =>
        rw [Sf.sfApply] at he
        cases hg : s0 k' with
        | none => rw [hg] at he; cases he
        | some l0 =>
          rw [hg] at he
          injection he with he'
          subst he'
          by_cases hk : k = k'
          · subst hk
            rw [hs] at hg
            injection hg with hg'
            subst hg'
            exact ih _ _ _ _ _ h hdtr
              (show Sf.sfUpdate s0 k (some (c0 :: l)) k = some (c0 :: l) by
                simp [Sf.sfUpdate])
              (List.mem_cons_of_mem _ hc)
          · exact ih _ _ _ _ _ h hdtr
              (show Sf.sfUpdate s0 k' (some (c0 :: l0)) k = some l by
                simp [Sf.sfUpdate, hk, hs]) hc
      | deliver k' cs r =>
        rw [Sf.sfApply] at he
        by_cases hg : s0 k' = some cs
        · rw [if_pos hg] at he
          injection he with he'
          subst he'
          have hk : ¬ k' = k := by
            intro hkk
            simp [Sf.deliverCount, List.countP_cons, hkk] at hd
          have hk2 : ¬ k = k' := fun hh => hk hh.symm
          exact ih _ _ _ _ _ h hdtr
            (show Sf.sfUpdate s0 k' none k = some l by
              simp [Sf.sfUpdate, hk2, hs]) hc
        · rw [if_neg hg] at he; cases he

theorem Sf.sfRun_cons (s : Sf.SFState) (e : Sf.SFEvent)
    (tr : List Sf.SFEvent) :
    Sf.sfRun s (e :: tr) =
      match Sf.sfApply s e with
      | some s' => Sf.sfRun s' tr
      | none => none := rfl

theorem Sf.attached_receives (ev : Sf.SFEvent) (pre u w : List Sf.SFEvent)
    (k : Key) (c : Nat) (cs : List Nat) (r : Sf.SFOutcome) (s : Sf.SFState)
    (hev : ∀ sA sB, Sf.sfApply sA ev = some sB → ∃ l, sB k = some l ∧ c ∈ l)
    (h : Sf.sfRun Sf.sfInit (pre ++ (ev :: (u ++ (.deliver k cs r :: w))))
      = some s)
    (hu : Sf.deliverCount k u = 0) : c ∈ cs := by
  rw [Sf.sfRun_append] at h
  cases hA : Sf.sfRun Sf.sfInit pre with
  | none => rw [hA] at h; cases h
  | some sA =>
    simp only [hA] at h
    rw [Sf.sfRun_cons] at h
    cases hB : Sf.sfApply sA ev with
    | none => rw [hB] at h; cases h
    | some sB =>
      simp only [hB] at h
      rw [Sf.sfRun_append] at h
      cases hC : Sf.sfRun sB u with
      | none => rw [hC] at h; cases h
      | some sC =>
        simp only [hC] at h
        rw [Sf.sfRun_cons] at h
        obtain ⟨l, hl, hcl⟩ := hev sA sB hB
        obtain ⟨l', hl', hcl'⟩ := Sf.mem_preserved u sB sC k c l hC hu hl hcl
        rw [Sf.sfApply] at h
        by_cases hg : sC k = some cs
        · rw [hl'] at hg
          injection hg with hg'
          subst hg'
          exact hcl'
        · rw [if_neg hg] at h; cases h

/-! ## Claims about the DDD decorator -/

/-- C1: `Set(k, v)` on the DDD decorator performs exactly three steps in
a fixed order — cache delete first (returning its error and stopping on
failure), database upsert second (returning its error and stopping on
failure), scheduler submission third (returning the scheduler's error on
rejection and `nil` otherwise) — so the cache delete always precedes the
database upsert, which always precedes the scheduling. -/
theorem ddd_set_three_steps_in_order (s : Ddd.State) (k : Key) (v : GoVal) :
    (∀ e f2 f3, Ddd.set ⟨some e, f2, f3⟩ s k v =
      ⟨s, some e, [.cacheDelete k], none⟩) ∧
    (∀ e f3, Ddd.set ⟨none, some e, f3⟩ s k v =
      ⟨⟨s.cache.erase k, s.db⟩, some e, [.cacheDelete k, .dbUpsert k v], none⟩) ∧
    (∀ r, (Ddd.set ⟨none, none, r⟩ s k v).ret = r ∧
      (Ddd.set ⟨none, none, r⟩ s k v).trace =
        [.cacheDelete k, .dbUpsert k v, .submit k]) := by
  refine ⟨fun e f2 f3 => rfl, fun e f3 => rfl, fun r => ?_⟩
  cases r <;> exact ⟨rfl, rfl⟩

/-- C2: `Get(k)` on the DDD decorator returns the wrapped cache's
`(value, error)` pair unmodified whenever its error is not the
`CacheMiss` sentinel; on a miss it queries the database, returning
`(nil, err)` on a database error and otherwise the database value paired
with the repopulation `Set`'s result — the value is returned even when
repopulation fails. -/
theorem ddd_get_read_through (cv dv : GoVal) (ce de rr : Option GoErr) :
    (ce ≠ some .cacheMiss → Ddd.get (cv, ce) (dv, de) rr = (cv, ce)) ∧
    (∀ e, Ddd.get (cv, some .cacheMiss) (dv, some e) rr = (none, some e)) ∧
    (Ddd.get (cv, some .cacheMiss) (dv, none) rr = (dv, rr)) := by
  refine ⟨fun h => ?_, fun e => rfl, rfl⟩
  simp [Ddd.get, h]

/-- Witness for C2 at concrete inputs: a cache hit is returned
unmodified. -/
theorem ddd_get_read_through_witness :
    Ddd.get (some 7, none) (some 3, none) none = (some 7, none) :=
  (ddd_get_read_through (some 7) (some 3) none none none).1 (by decide)

/-- C3: when the delayed second cache deletion scheduled by `Set` or
`Delete` fails, the error is delivered to the configured error handler
exactly once and never to the caller: the value `Set`/`Delete` returned
is the synchronous-path result whatever the background deletion later
does, and the handler is invoked exactly on the background failure. -/
theorem ddd_background_error_isolated (f : Ddd.Faults) (bg : Option GoErr)
    (s : Ddd.State) (k : Key) (v : GoVal) :
    ((Ddd.setThenTask f bg s k v).2.1 = (Ddd.set f s k v).ret) ∧
    ((Ddd.deleteThenTask f bg s k).2.1 = (Ddd.delete f s k).ret) ∧
    (∀ e, bg = some e → (Ddd.set f s k v).task ≠ none →
      (Ddd.setThenTask f bg s k v).2.2 = [e]) ∧
    (∀ e, bg = some e → (Ddd.delete f s k).task ≠ none →
      (Ddd.deleteThenTask f bg s k).2.2 = [e]) ∧
    (bg = none → (Ddd.setThenTask f bg s k v).2.2 = []) ∧
    (bg = none → (Ddd.deleteThenTask f bg s k).2.2 = []) := by
  obtain ⟨fc, fd, fs⟩ := f
  cases fc <;> cases fd <;> cases fs <;> cases bg <;>
    simp [Ddd.set, Ddd.delete, Ddd.setThenTask, Ddd.deleteThenTask,
      Ddd.cacheDeleteOp, Ddd.dbUpsertOp, Ddd.dbDeleteOp, Ddd.runDelayed]

/-- Witness for C3 at concrete inputs: with no synchronous faults and a
failing background deletion, the handler receives exactly that error,
once, and the caller still sees the synchronous return. -/
theorem ddd_background_error_isolated_witness :
    (Ddd.setThenTask Ddd.Faults.ok (some (.fail 3)) ⟨[], []⟩ "k" (some 1)).2.2
        = [.fail 3] ∧
    (Ddd.setThenTask Ddd.Faults.ok (some (.fail 3)) ⟨[], []⟩ "k" (some 1)).2.1
        = (Ddd.set Ddd.Faults.ok ⟨[], []⟩ "k" (some 1)).ret :=
  ⟨(ddd_background_error_isolated Ddd.Faults.ok (some (.fail 3)) ⟨[], []⟩ "k"
      (some 1)).2.2.1 (.fail 3) rfl (by decide),
   (ddd_background_error_isolated Ddd.Faults.ok (some (.fail 3)) ⟨[], []⟩ "k"
      (some 1)).1⟩

/-- C7: on the DDD decorator, `Delete(k)` with all collaborator calls
succeeding, immediately followed by `Get(k)`, yields the `CacheMiss`
outcome: the cache was purged and the database row removed, so the
read-through reports the miss sentinel. -/
theorem ddd_delete_then_get_misses (s : Ddd.State) (k : Key) :
    (Ddd.getSt (Ddd.delete Ddd.Faults.ok s k).state k).2
      = (none, some .cacheMiss) := by
  simp [Ddd.delete, Ddd.Faults.ok, Ddd.cacheDeleteOp, Ddd.dbDeleteOp,
    Ddd.getSt, Ddd.cacheGetOp, Ddd.dbSelectOp, Store.lookup_erase]

/-- C8: when the initial cache deletion inside `Set(k, v)` or
`Delete(k)` fails, the call returns that error and nothing else happens:
the trace holds only the failed cache delete (no database upsert, no
database delete, no scheduler submission), no delayed deletion task is
scheduled, and the database state is exactly what it was before the
call. -/
theorem ddd_first_delete_failure_frames (f : Ddd.Faults) (s : Ddd.State)
    (k : Key) (v : GoVal) (e : GoErr) (h : f.cacheDelete = some e) :
    ((Ddd.set f s k v).ret = some e ∧
      (Ddd.set f s k v).state.db = s.db ∧
      (Ddd.set f s k v).trace = [.cacheDelete k] ∧
      (Ddd.set f s k v).task = none) ∧
    ((Ddd.delete f s k).ret = some e ∧
      (Ddd.delete f s k).state.db = s.db ∧
      (Ddd.delete f s k).trace = [.cacheDelete k] ∧
      (Ddd.delete f s k).task = none) := by
  obtain ⟨fc, fd, fs⟩ := f
  cases h
  exact ⟨⟨rfl, rfl, rfl, rfl⟩, ⟨rfl, rfl, rfl, rfl⟩⟩

/-- Witness for C8 at concrete inputs: a failing first cache delete
aborts `Set` with that error, leaving the database untouched. -/
theorem ddd_first_delete_failure_frames_witness :
    (Ddd.set ⟨some (.fail 5), none, none⟩ ⟨[], [("k", some 2)]⟩ "k"
        (some 9)).ret = some (.fail 5) ∧
    (Ddd.set ⟨some (.fail 5), none, none⟩ ⟨[], [("k", some 2)]⟩ "k"
        (some 9)).state.db = [("k", some 2)] :=
  ⟨(ddd_first_delete_failure_frames ⟨some (.fail 5), none, none⟩
      ⟨[], [("k", some 2)]⟩ "k" (some 9) (.fail 5) rfl).1.1,
   (ddd_first_delete_failure_frames ⟨some (.fail 5), none, none⟩
      ⟨[], [("k", some 2)]⟩ "k" (some 9) (.fail 5) rfl).1.2.1⟩

/-- C9: when `Set(k, v)` returns an error because the scheduler rejected
the submission after the cache delete and database upsert succeeded, the
upsert has already taken effect (the database holds `v` at `k`), the
cache entry for `k` remains deleted, both earlier steps are in the
trace, and no delayed task is pending — an error return from `Set` does
not imply the state is unchanged. -/
theorem ddd_set_scheduler_rejection_state (s : Ddd.State) (k : Key)
    (v : GoVal) (e : GoErr) :
    (Ddd.set ⟨none, none, some e⟩ s k v).ret = some e ∧
    (Ddd.set ⟨none, none, some e⟩ s k v).state.db.lookup k = some v ∧
    (Ddd.set ⟨none, none, some e⟩ s k v).state.cache.lookup k = none ∧
    (Ddd.set ⟨none, none, some e⟩ s k v).trace =
      [.cacheDelete k, .dbUpsert k v, .submit k] ∧
    (Ddd.set ⟨none, none, some e⟩ s k v).task = none := by
  refine ⟨rfl, ?_, ?_, rfl, rfl⟩
  · simpa [Ddd.set, Ddd.cacheDeleteOp, Ddd.dbUpsertOp] using
      Store.lookup_insert s.db k v
  · simpa [Ddd.set, Ddd.cacheDeleteOp, Ddd.dbUpsertOp] using
      Store.lookup_erase s.cache k

/-! ## Claim about the coalescing decorator -/

/-- C5: in every interleaving of the coalescing decorator's in-flight
table, at most one underlying fetch per key is in flight at any time
(over any valid trace the fetch starts for a key never exceed its
completions by more than one, and completions never exceed starts), and
every caller that joined a fetch — the leader that started it as well as
every follower that joined before its delivery — is among the callers of
that fetch's single delivery and receives its one `(value, error)`
outcome. -/
theorem sf_single_fetch_shared_outcome :
    (∀ tr s, Sf.sfRun Sf.sfInit tr = some s → ∀ k,
      Sf.deliverCount k tr ≤ Sf.startCount k tr ∧
      Sf.startCount k tr ≤ Sf.deliverCount k tr + 1) ∧
    (∀ pre u w k c cs r s,
      Sf.sfRun Sf.sfInit
        (pre ++ (Sf.SFEvent.fetchStart k c :: (u ++ (Sf.SFEvent.deliver k cs r :: w))))
        = some s →
      Sf.deliverCount k u = 0 →
      c ∈ cs ∧ (c, r) ∈ Sf.sfOutcomes
        (pre ++ (Sf.SFEvent.fetchStart k c :: (u ++ (Sf.SFEvent.deliver k cs r :: w))))) ∧
    (∀ pre u w k c cs r s,
      Sf.sfRun Sf.sfInit
        (pre ++ (Sf.SFEvent.join k c :: (u ++ (Sf.SFEvent.deliver k cs r :: w))))
        = some s →
      Sf.deliverCount k u = 0 →
      c ∈ cs ∧ (c, r) ∈ Sf.sfOutcomes
        (pre ++ (Sf.SFEvent.join k c :: (u ++ (Sf.SFEvent.deliver k cs r :: w))))) := by
  refine ⟨fun tr s h k => ?_, fun pre u w k c cs r s h hu => ?_,
    fun pre u w k c cs r s h hu => ?_⟩
  · have hinv := Sf.sfRun_count_invariant tr Sf.sfInit s h k
    have h0 : Sf.openCount Sf.sfInit k = 0 := rfl
    have h1 : Sf.openCount s k ≤ 1 := by
      unfold Sf.openCount
      cases s k <;> simp
    omega
  · have hc : c ∈ cs := by
      refine Sf.attached_receives (.fetchStart k c) pre u w k c cs r s
        (fun sA sB hB => ?_) h hu
      rw [Sf.sfApply] at hB
      cases hg : sA k with
      | some _ => rw [hg] at hB; cases hB
      | none =>
        rw [hg] at hB
        injection hB with hB'
        subst hB'
        exact ⟨[c], by simp [Sf.sfUpdate], by simp⟩
    refine ⟨hc, List.mem_flatMap.mpr ⟨.deliver k cs r, by simp, ?_⟩⟩
    show (c, r) ∈ cs.map fun c0 => (c0, r)
    exact List.mem_map.mpr ⟨c, hc, rfl⟩
  · have hc : c ∈ cs := by
      refine Sf.attached_receives (.join k c) pre u w k c cs r s
        (fun sA sB hB => ?_) h hu
      rw [Sf.sfApply] at hB
      cases hg : sA k with
      | none => rw [hg] at hB; cases hB
      | some l0 =>
        rw [hg] at hB
        injection hB with hB'
        subst hB'
        exact ⟨c :: l0, by simp [Sf.sfUpdate], by simp⟩
    refine ⟨hc, List.mem_flatMap.mpr ⟨.deliver k cs r, by simp, ?_⟩⟩
    show (c, r) ∈ cs.map fun c0 => (c0, r)
    exact List.mem_map.mpr ⟨c, hc, rfl⟩

/-- Witness for C5 at a concrete trace: a leader starts the fetch for
`"k"`, one follower joins, and the delivery hands the single outcome
`(some 5, nil)` to both. -/
theorem sf_single_fetch_shared_outcome_witness :
    (Sf.startCount "k"
        [.fetchStart "k" 1, .join "k" 2, .deliver "k" [2, 1] (some 5, none)]
      ≤ Sf.deliverCount "k"
        [.fetchStart "k" 1, .join "k" 2, .deliver "k" [2, 1] (some 5, none)]
        + 1) ∧
    (2 : Nat) ∈ [2, 1] ∧
    ((2 : Nat), ((some 5 : GoVal), (none : Option GoErr))) ∈ Sf.sfOutcomes
      [.fetchStart "k" 1, .join "k" 2, .deliver "k" [2, 1] (some 5, none)] :=
  ⟨(sf_single_fetch_shared_outcome.1
      [.fetchStart "k" 1, .join "k" 2, .deliver "k" [2, 1] (some 5, none)]
      (Sf.sfUpdate (Sf.sfUpdate (Sf.sfUpdate Sf.sfInit "k" (some [1])) "k"
        (some [2, 1])) "k" none) rfl "k").2,
   (sf_single_fetch_shared_outcome.2.2 [.fetchStart "k" 1] [] [] "k" 2 [2, 1]
      (some 5, none)
      (Sf.sfUpdate (Sf.sfUpdate (Sf.sfUpdate Sf.sfInit "k" (some [1])) "k"
        (some [2, 1])) "k" none) rfl rfl)⟩

/-! ## Claims about the sharding router -/

/-- C4 (counterexample): the claim quantifies over every bucket count
`n ≥ 1` and asserts that a 4-byte digest selects the 32-bit sum modulo
`n`; but the code reduces the sum modulo `uint32(n)` — `n` truncated to
32 bits.  At `n = 2^32 + 1` with `Sum32() = 5` the code selects bucket
`5 % 1 = 0` while the claim demands `5 % (2^32 + 1) = 5`. -/
theorem sharded_bucket_idx_counterexample :
    Sharded.bucketIdx (.ok ⟨none, 4, some 5, none, []⟩) 4294967297 = .ok 0 ∧
    (5 : Nat) % 4294967297 = 5 ∧
    Sharded.BucketOutcome.ok 0 ≠ .ok 5 := by
  refine ⟨?_, by norm_num, by decide⟩
  have h1 : 4294967297 % 2 ^ 32 = 1 := by norm_num
  simp [Sharded.bucketIdx, h1]

/-- C4 (amended): for every key behaviour and every bucket count
`n ≥ 1`, `bucket(key)` derives the index exactly as claimed on the
8-byte path (the 64-bit sum modulo `n`, for every Go-representable
count `n < 2^64`) and on the other-width path (the first 4 digest bytes
big-endian as an unsigned 32-bit integer modulo `n`, bucket 0 when the
digest is shorter than 4 bytes), and propagates a hash-construction or
write failure without selecting a bucket; on the 4-byte path the claim
holds for `n < 2^32`, while for `n ≥ 2^32` the code diverges from the
claim: it reduces the 32-bit sum modulo `uint32(n)` when
`uint32(n) ≠ 0`, and panics on modulo-by-zero when `n` is an exact
multiple of `2^32`. -/
theorem sharded_bucket_idx_derivation (hi : Sharded.HashInst) (n : Nat)
    (h1 : 1 ≤ n) :
    (∀ e, Sharded.bucketIdx (.error e) n = .err e) ∧
    (∀ e, hi.writeErr = some e → Sharded.bucketIdx (.ok hi) n = .err e) ∧
    (hi.writeErr = none → hi.size = 4 → ∀ s, hi.sum32? = some s →
      (n < 2 ^ 32 → Sharded.bucketIdx (.ok hi) n = .ok (s % n)) ∧
      (n % 2 ^ 32 = 0 → Sharded.bucketIdx (.ok hi) n = .panicked) ∧
      (n % 2 ^ 32 ≠ 0 →
        Sharded.bucketIdx (.ok hi) n = .ok (s % (n % 2 ^ 32)))) ∧
    (hi.writeErr = none → hi.size = 8 → ∀ s, hi.sum64? = some s →
      n < 2 ^ 64 → Sharded.bucketIdx (.ok hi) n = .ok (s % n)) ∧
    (hi.writeErr = none → hi.size ≠ 4 → hi.size ≠ 8 → hi.digest.length < 4 →
      Sharded.bucketIdx (.ok hi) n = .ok 0) ∧
    (hi.writeErr = none → hi.size ≠ 4 → hi.size ≠ 8 → 4 ≤ hi.digest.length →
      Sharded.bucketIdx (.ok hi) n = .ok (Sharded.beUint32 hi.digest % n)) := by
  have hn : n ≠ 0 := Nat.one_le_iff_ne_zero.mp h1
  refine ⟨fun e => rfl, fun e he => ?_,
    fun hw hs s h32s => ⟨fun hlt => ?_, fun hz => ?_, fun hnz => ?_⟩,
    fun hw hs s h64s h64 => ?_, fun hw hs4 hs8 hd => ?_,
    fun hw hs4 hs8 hd => ?_⟩
  · simp [Sharded.bucketIdx, he]
  · have hlt' : n < 4294967296 := by norm_num at hlt; exact hlt
    have h32 : n % 4294967296 = n := Nat.mod_eq_of_lt hlt'
    simp [Sharded.bucketIdx, hw, hs, h32s, h32, hn]
  · have hz' : n % 4294967296 = 0 := by norm_num at hz; exact hz
    simp [Sharded.bucketIdx, hw, hs, h32s, hz']
  · have hnz' : n % 4294967296 ≠ 0 := by norm_num at hnz; exact hnz
    simp [Sharded.bucketIdx, hw, hs, h32s, hnz']
  · have h64' : n < 18446744073709551616 := by norm_num at h64; exact h64
    have hmod : n % 18446744073709551616 = n := Nat.mod_eq_of_lt h64'
    simp [Sharded.bucketIdx, hw, hs, h64s, hmod, hn]
  · simp [Sharded.bucketIdx, hw, hs4, hs8, hd]
  · simp [Sharded.bucketIdx, hw, hs4, hs8, Nat.not_lt.mpr hd, hn]

/-- Witness for the amended C4 at concrete inputs, exercising every
regime: a 4-byte hash with sum 10 over 3 buckets selects bucket 1; over
`2^32` buckets the zero 32-bit modulus panics; over `2^32 + 3` buckets
sum 5 selects bucket `5 % 3 = 2`; an 8-byte hash with sum 11 over 3
buckets selects bucket 2; a 20-byte digest selects by its first four
big-endian bytes. -/
theorem sharded_bucket_idx_derivation_witness :
    Sharded.bucketIdx (.ok ⟨none, 4, some 10, none, []⟩) 3 = .ok 1 ∧
    Sharded.bucketIdx (.ok ⟨none, 4, some 5, none, []⟩) 4294967296
      = .panicked ∧
    Sharded.bucketIdx (.ok ⟨none, 4, some 5, none, []⟩) 4294967299
      = .ok 2 ∧
    Sharded.bucketIdx (.ok ⟨none, 8, none, some 11, []⟩) 3 = .ok 2 ∧
    Sharded.bucketIdx (.ok ⟨none, 20, none, none, [0, 0, 1, 2, 9]⟩) 3
      = .ok (258 % 3) :=
  ⟨((sharded_bucket_idx_derivation ⟨none, 4, some 10, none, []⟩ 3
      (by decide)).2.2.1 rfl rfl 10 rfl).1 (by norm_num),
   ((sharded_bucket_idx_derivation ⟨none, 4, some 5, none, []⟩ 4294967296
      (by norm_num)).2.2.1 rfl rfl 5 rfl).2.1 (by norm_num),
   ((sharded_bucket_idx_derivation ⟨none, 4, some 5, none, []⟩ 4294967299
      (by norm_num)).2.2.1 rfl rfl 5 rfl).2.2 (by norm_num),
   (sharded_bucket_idx_derivation ⟨none, 8, none, some 11, []⟩ 3
      (by decide)).2.2.2.1 rfl rfl 11 rfl (by norm_num),
   (sharded_bucket_idx_derivation ⟨none, 20, none, none, [0, 0, 1, 2, 9]⟩ 3
      (by decide)).2.2.2.2.2 rfl (by decide) (by decide) (by decide)⟩

/-- C6: constructing the sharding router with an empty bucket list
panics at construction, so no usable instance exists; constructing it
with at least one bucket yields the instance. -/
theorem sharded_new_empty_is_fatal (h : Key → Except GoErr Sharded.HashInst) :
    Sharded.new [] h = .panicked ∧
    (∀ b bs, Sharded.new (b :: bs) h = .ret ⟨h, b :: bs⟩) :=
  ⟨rfl, fun _ _ => rfl⟩

/-- C10: the bucket resolution downcasts the hash instance without
checking: a configured hash whose `Size()` reports 4 without
implementing `hash.Hash32` (or 8 without `hash.Hash64`) makes every
`Get`, `Set` and `Delete` panic during bucket resolution instead of
returning an error. -/
theorem sharded_unchecked_downcast_panics (c : Sharded.Cache) (k : Key)
    (hi : Sharded.HashInst) (hh : c.hash k = .ok hi) (hw : hi.writeErr = none)
    (hcast : (hi.size = 4 ∧ hi.sum32? = none) ∨
      (hi.size = 8 ∧ hi.sum64? = none)) :
    Sharded.get c k = .panicked ∧
    (∀ v, Sharded.set c k v = .panicked) ∧
    Sharded.delete c k = .panicked := by
  have hb : Sharded.bucketIdx (c.hash k) c.buckets.length = .panicked := by
    rw [hh]
    rcases hcast with ⟨hs, hc⟩ | ⟨hs, hc⟩
    · simp [Sharded.bucketIdx, hw, hs, hc]
    · simp [Sharded.bucketIdx, hw, hs, hc]
  exact ⟨by simp [Sharded.get, hb], fun v => by simp [Sharded.set, hb],
    by simp [Sharded.delete, hb]⟩

/-- Witness for C10 at concrete inputs: with one bucket and a hash of
size 4 that implements no 32-bit sum, `Get` panics. -/
theorem sharded_unchecked_downcast_panics_witness :
    Sharded.get
      ⟨fun _ => .ok ⟨none, 4, none, none, [1, 2, 3, 4]⟩,
        [⟨fun _ => (none, none), fun _ _ => none, fun _ => none⟩]⟩ "k"
      = .panicked :=
  (sharded_unchecked_downcast_panics
    ⟨fun _ => .ok ⟨none, 4, none, none, [1, 2, 3, 4]⟩,
      [⟨fun _ => (none, none), fun _ _ => none, fun _ => none⟩]⟩ "k"
    ⟨none, 4, none, none, [1, 2, 3, 4]⟩ rfl rfl (Or.inl ⟨rfl, rfl⟩)).1

end Gouache
